import Mathlib

/-!
Shallow embedding of `src/core/basicfilelauncher.cpp` (class `Fm::BasicFileLauncher`).

External collaborators (GIO application lookup/launch primitives, the file
metadata provider, the async file-info fetcher) are modelled as oracles in a
`Platform` structure; the overridable virtual methods of the launcher
(`showError`, `chooseApp`, `askExecFile`) together with the `quickExec_` flag
are modelled as a `LauncherOps` structure (the base-class implementations are
`baseOps` below).  Side effects are recorded as an explicit event trace; the
process working directory is threaded through as explicit state.  The
recursive re-dispatch `launchFiles -> launchPaths -> launchFiles` is made
total with a fuel argument: `none` marks fuel exhaustion (the C++ recursion is
genuinely unbounded).
-/

namespace Fm

/-- `Fm::FilePath` (a wrapper over `GFile`), reduced to the two observations
the launcher makes of it: its URI form (`FilePath::uri`) and its local path
(`FilePath::localPath`, `none` models a NULL `char*` for non-local files). -/
structure FPath where
  uri : String
  localPath : Option String
deriving DecidableEq, Repr

/-- `g_uri_parse_scheme`: the scheme is a leading run of characters starting
with an ASCII letter, continuing with letters, digits, `+`, `-` or `.`, and
terminated by a colon; otherwise NULL. -/
def isSchemeChar (c : Char) : Bool :=
  c.isAlpha || c.isDigit || c = '+' || c = '-' || c = '.'

def uriParseScheme (s : String) : Option String :=
  let cs := s.toList
  let pre := cs.takeWhile (fun c => c ≠ ':')
  if pre.length = cs.length then
    none
  else
    match pre with
    | [] => none
    | c :: rest =>
      if c.isAlpha && rest.all isSchemeChar then some (String.mk pre) else none

/-- `g_file_has_uri_scheme` on an `Fm::FilePath`, via the URI string. -/
def FPath.hasUriScheme (p : FPath) (s : String) : Bool :=
  uriParseScheme p.uri = some s

/-- `FilePath::fromUri`: a `GFile` built from a URI string; the launcher only
ever reads back its URI form. -/
def FPath.fromUri (u : String) : FPath :=
  { uri := u, localPath := none }

/-- `FilePath::fromLocalPath`: a `GFile` for a native path. -/
def FPath.fromLocalPath (p : String) : FPath :=
  { uri := String.append "file://" p, localPath := some p }

/-- `FilePath::fromPathStr` (used for mountable targets). -/
def FPath.fromPathStr (s : String) : FPath :=
  { uri := s, localPath := none }

/-- `g_path_is_absolute` on Unix: the first byte is a directory separator. -/
def pathIsAbsolute (s : String) : Bool :=
  match s.toList with
  | [] => false
  | c :: _ => c = '/'

/-- Step back over consecutive `/` separators, as the pointer loop in
`g_path_get_dirname` does (`while (base > file_name && IS_SEP (*base)) base--`). -/
def backOverSlashes (cs : List Char) : Nat → Nat
  | 0 => 0
  | j + 1 => if cs.getD (j + 1) ' ' = '/' then backOverSlashes cs j else j + 1

/-- Index of the last `/` in the list, if any (`strrchr`). -/
def lastSlashIdx (cs : List Char) : Option Nat :=
  match cs.reverse.findIdx? (fun c => c = '/') with
  | none => none
  | some k => some (cs.length - 1 - k)

/-- `g_path_get_dirname`: everything up to the last separator (with trailing
separators stripped), `"."` when there is no separator. -/
def pathGetDirname (p : String) : String :=
  let cs := p.toList
  match lastSlashIdx cs with
  | none => "."
  | some i => String.mk (cs.take (backOverSlashes cs i + 1))

/-- `g_shell_quote`: wrap in single quotes, rewriting each embedded single
quote as `'\''`. -/
def shellQuote (s : String) : String :=
  let q : Char := Char.ofNat 39
  let esc : Char → List Char := fun c =>
    if c = q then [q, '\\', q, q] else [c]
  String.mk (q :: (s.toList.flatMap esc ++ [q]))

/-- The MIME type object exposed by a `FileInfo` (`mimeType()->name()`). -/
structure MimeType where
  name : String
deriving DecidableEq, Repr

/-- `Fm::FileInfo`, reduced to the fields `BasicFileLauncher` reads: the path,
the resolved target URI (`""` models an empty target), the MIME type and the
classification flags queried by the dispatch loop. -/
structure FileInfo where
  path : FPath
  target : String
  mimeType : MimeType
  isDir : Bool
  isMountable : Bool
  isDesktopEntry : Bool
  isExecutableType : Bool
  isShortcut : Bool
  isNative : Bool
deriving DecidableEq, Repr

/-- A resolved `GAppInfo` handle, opaque to the dispatcher. -/
structure AppInfo where
  id : String
deriving DecidableEq, Repr

/-- `BasicFileLauncher::ExecAction`. -/
inductive ExecAction where
  | DIRECT_EXEC
  | EXEC_IN_TERMINAL
  | OPEN_WITH_DEFAULT_APP
  | CANCEL
deriving DecidableEq, Repr

/-- The `GError` conditions the launcher constructs or receives. `unset`
models a NULL `GError*` handed to `showError`. -/
inductive ErrKind where
  | notMounted
  | invalidDesktopEntry (name : String)
  | chdirFailed (dir : String)
  | launchFailed
  | unset
deriving DecidableEq, Repr

/-- One observable effect of the dispatcher.  Each constructor corresponds to
one concrete call in the C++ source:
`showErr` to a `showError` call (recording the handled flag it returned),
`launch` to `g_app_info_launch_uris` inside `launchWithApp` (the app may be
NULL), `desktopLaunch` to the `launchDesktopEntry(const char*, ...)` overload
being entered with its identifier, `createApp` to
`fm_app_info_create_from_commandline` with its flags word, `execLaunch` to
`fm_app_info_launch`, `chdirTo` to a `chdir` call, `fetchInfos` to the blocking
`FileInfoJob` in `launchPaths`, `oobRead` to the out-of-bounds `paths[0]` read
on an empty vector, and `nullDeref` to passing a NULL local path to
`g_file_test`. -/
inductive Event where
  | showErr (kind : ErrKind) (path : Option FPath) (info : Option FileInfo) (handled : Bool)
  | launch (app : Option AppInfo) (paths : List FPath) (ok : Bool)
  | desktopLaunch (name : String)
  | createApp (cmdline : String) (flags : Nat)
  | execLaunch (ok : Bool)
  | chdirTo (dir : String) (ok : Bool)
  | fetchInfos (paths : List FPath)
  | oobRead
  | nullDeref
deriving DecidableEq, Repr

/-- Oracle for the platform (GIO and the file-info subsystem).  Each field
fixes the answer of one external primitive. -/
structure Platform where
  defaultForType : String → Option AppInfo
  defaultForUriScheme : String → Option AppInfo
  desktopAppFromFilename : String → Option AppInfo
  desktopAppFromId : String → Option AppInfo
  launchUrisOk : Option AppInfo → List String → Bool
  fileTestExecutable : String → Bool
  createFromCommandline : String → Nat → Option AppInfo
  appInfoLaunchOk : AppInfo → Bool
  chdirOk : String → Bool
  fileInfoFor : FPath → FileInfo

/-- The overridable surface of `BasicFileLauncher` (its virtual methods) plus
the `quickExec_` flag. -/
structure LauncherOps where
  quickExec : Bool
  showError : ErrKind → Option FPath → Option FileInfo → Bool
  chooseApp : List FileInfo → String → Option AppInfo
  askExecFile : FileInfo → ExecAction

/-- The base-class behaviour: `showError` returns false, `chooseApp` returns
no application, `askExecFile` returns `DIRECT_EXEC`, `quickExec_` starts
false. -/
def baseOps : LauncherOps :=
  { quickExec := false
    showError := fun _ _ _ => false
    chooseApp := fun _ _ => none
    askExecFile := fun _ => ExecAction.DIRECT_EXEC }

/-- `G_APP_INFO_CREATE_NEEDS_TERMINAL`. -/
def NEEDS_TERMINAL : Nat := 1

/-- `BasicFileLauncher::launchWithApp`: convert every path to URI form
(`g_list_prepend` builds the list reversed), call the launch primitive once,
and on failure report an error against `paths[0]` — an out-of-bounds read when
the batch is empty. -/
def launchWithApp (ops : LauncherOps) (plat : Platform)
    (app : Option AppInfo) (paths : List FPath) : List Event × Bool :=
  let ok := plat.launchUrisOk app ((paths.map FPath.uri).reverse)
  if ok then
    ([Event.launch app paths true], true)
  else
    match paths with
    | [] => ([Event.launch app paths false, Event.oobRead], false)
    | p :: _ =>
      let h := ops.showError ErrKind.launchFailed (some p) none
      ([Event.launch app paths false,
        Event.showErr ErrKind.launchFailed (some p) none h], false)

/-- `BasicFileLauncher::launchWithDefaultApp`. -/
def launchWithDefaultApp (ops : LauncherOps) (plat : Platform)
    (fi : FileInfo) : List Event × Bool :=
  match plat.defaultForType fi.mimeType.name with
  | some a => launchWithApp ops plat (some a) [fi.path]
  | none =>
    let h := ops.showError ErrKind.unset (some fi.path) none
    ([Event.showErr ErrKind.unset (some fi.path) none h], false)

/-- `BasicFileLauncher::handleShortcut`: parse the target's URI scheme; with
no scheme return the target as a bare local path; with a local-addressing
scheme (`file`, `trash`, `network`, `computer`) return the converted URI; for
any other scheme launch the scheme's default handler (possibly NULL) with the
raw URI and return the invalid path. -/
def handleShortcut (ops : LauncherOps) (plat : Platform)
    (fi : FileInfo) : List Event × Option FPath :=
  match uriParseScheme fi.target with
  | some scheme =>
    if scheme = "file" ∨ scheme = "trash" ∨ scheme = "network" ∨ scheme = "computer" then
      ([], some (FPath.fromUri fi.target))
    else
      let app := plat.defaultForUriScheme scheme
      ((launchWithApp ops plat app [FPath.fromUri fi.target]).1, none)
  | none => ([], some (FPath.fromLocalPath fi.target))

/-- `BasicFileLauncher::launchDesktopEntry(const char*, ...)`: resolve the
identifier through the desktop-entry registry (by absolute filename or by id)
and hand off to `launchWithApp`; on resolution failure report an
invalid-desktop-entry error. -/
def launchDesktopEntryName (ops : LauncherOps) (plat : Platform)
    (name : String) (paths : List FPath) : List Event × Bool :=
  let app := if pathIsAbsolute name then plat.desktopAppFromFilename name
             else plat.desktopAppFromId name
  match app with
  | some a =>
    let r := launchWithApp ops plat (some a) paths
    (Event.desktopLaunch name :: r.1, r.2)
  | none =>
    let h := ops.showError (ErrKind.invalidDesktopEntry name) none none
    ([Event.desktopLaunch name,
      Event.showErr (ErrKind.invalidDesktopEntry name) none none h], false)

/-- The user decision obtained for an executable:
`quickExec_ ? ExecAction::DIRECT_EXEC : askExecFile(fileInfo)`. -/
def chosenAct (ops : LauncherOps) (fi : FileInfo) : ExecAction :=
  if ops.quickExec then ExecAction.DIRECT_EXEC else ops.askExecFile fi

/-- The `GAppInfoCreateFlags` word handed to
`fm_app_info_create_from_commandline`: `G_APP_INFO_CREATE_NONE`, with
`G_APP_INFO_CREATE_NEEDS_TERMINAL` or-ed in for terminal execution. -/
def execFlags (ops : LauncherOps) (fi : FileInfo) : Nat :=
  if chosenAct ops fi = ExecAction.EXEC_IN_TERMINAL then NEEDS_TERMINAL else 0

/-- The tail of `launchExecutable` once the application was created: change
the working directory to the executable's containing folder when it differs
from `"."` (reporting a failure to do so), run the launch primitive
(reporting its failure), then — only if the directory was changed — attempt
to `chdir` back (a failure here only warns).  Returns the events and the
final working directory. -/
def runCreatedApp (ops : LauncherOps) (plat : Platform) (app : AppInfo)
    (filename : String) (cwd : String) : List Event × String :=
  let run_path := pathGetDirname filename
  let step1 : List Event × Option String × String :=
    if run_path ≠ "." then
      if plat.chdirOk run_path then
        ([Event.chdirTo run_path true], some cwd, run_path)
      else
        let h := ops.showError (ErrKind.chdirFailed run_path) none none
        ([Event.chdirTo run_path false,
          Event.showErr (ErrKind.chdirFailed run_path) none none h], none, cwd)
    else ([], none, cwd)
  let launchEvs : List Event :=
    if plat.appInfoLaunchOk app then [Event.execLaunch true]
    else
      let h := ops.showError ErrKind.launchFailed none none
      [Event.execLaunch false, Event.showErr ErrKind.launchFailed none none h]
  let step3 : List Event × String :=
    match step1.2.1 with
    | some saved =>
      if plat.chdirOk saved then ([Event.chdirTo saved true], saved)
      else ([Event.chdirTo saved false], step1.2.2)
    | none => ([], step1.2.2)
  (step1.1 ++ launchEvs ++ step3.1, step3.2)

/-- `BasicFileLauncher::launchExecutable`, with the process working directory
threaded as explicit state (input `cwd`, output the final component).  The
executable bit is re-tested first; the user decision is short-circuited by
`quickExec_`; terminal execution adds `G_APP_INFO_CREATE_NEEDS_TERMINAL`; the
working-directory handling after a successful creation is `runCreatedApp`. -/
def launchExecutable (ops : LauncherOps) (plat : Platform)
    (fi : FileInfo) (cwd : String) : List Event × Bool × String :=
  match fi.path.localPath with
  | none => ([Event.nullDeref], false, cwd)
  | some filename =>
    if plat.fileTestExecutable filename then
      match chosenAct ops fi with
      | ExecAction.EXEC_IN_TERMINAL | ExecAction.DIRECT_EXEC =>
        let quoted := shellQuote filename
        match plat.createFromCommandline quoted (execFlags ops fi) with
        | none => ([Event.createApp quoted (execFlags ops fi)], false, cwd)
        | some app =>
          let r := runCreatedApp ops plat app filename cwd
          (Event.createApp quoted (execFlags ops fi) :: r.1, true, r.2)
      | ExecAction.OPEN_WITH_DEFAULT_APP =>
        let r := launchWithDefaultApp ops plat fi
        (r.1, r.2, cwd)
      | ExecAction.CANCEL => ([], false, cwd)
    else ([], false, cwd)

/-- `BasicFileLauncher::openFolder` (base implementation): pick an application
for `inode/directory` via `chooseApp` and launch all folders in one call, or
report the (unset) error. -/
def openFolder (ops : LauncherOps) (plat : Platform)
    (folders : List FileInfo) : List Event × Bool :=
  match ops.chooseApp folders "inode/directory" with
  | some a => ((launchWithApp ops plat (some a) (folders.map FileInfo.path)).1, false)
  | none =>
    let h := ops.showError ErrKind.unset none none
    ([Event.showErr ErrKind.unset none none h], false)

/-- The classification buckets of the dispatch loop (spec §3). -/
inductive Bucket where
  | directory
  | mountablePending
  | mountableResolved
  | desktopEntry
  | executable
  | shortcut
  | genericMime
deriving DecidableEq, Repr

/-- The if-else chain of the classification loop in `launchFiles`, as a
function from a file reference to its bucket. -/
def classify (fi : FileInfo) : Bucket :=
  if fi.isDir then Bucket.directory
  else if fi.isMountable then
    (if fi.target = "" then Bucket.mountablePending else Bucket.mountableResolved)
  else if fi.isDesktopEntry then Bucket.desktopEntry
  else if fi.isExecutableType then Bucket.executable
  else if fi.isShortcut then Bucket.shortcut
  else Bucket.genericMime

/-- Membership of a reference in a bucket, written out with the priority
context each test is reached under (spec §3: directory > mountable >
desktop-entry > executable > shortcut > generic). -/
def inBucket (fi : FileInfo) : Bucket → Bool
  | Bucket.directory => fi.isDir
  | Bucket.mountablePending => !fi.isDir && fi.isMountable && fi.target == ""
  | Bucket.mountableResolved => !fi.isDir && fi.isMountable && fi.target != ""
  | Bucket.desktopEntry => !fi.isDir && !fi.isMountable && fi.isDesktopEntry
  | Bucket.executable =>
    !fi.isDir && !fi.isMountable && !fi.isDesktopEntry && fi.isExecutableType
  | Bucket.shortcut =>
    !fi.isDir && !fi.isMountable && !fi.isDesktopEntry && !fi.isExecutableType &&
      fi.isShortcut
  | Bucket.genericMime =>
    !fi.isDir && !fi.isMountable && !fi.isDesktopEntry && !fi.isExecutableType &&
      !fi.isShortcut

/-- The grouping table `mimeTypeToFiles` (`std::unordered_map<std::string,
FileInfoList>`), modelled as an association list; the hash map's unspecified
iteration order is fixed here as insertion order, which no claim depends on. -/
abbrev MimeTable := List (String × List FileInfo)

/-- `mimeTypeToFiles[mimeType->name()].emplace_back(fileInfo)`. -/
def tableInsert (tbl : MimeTable) (m : String) (fi : FileInfo) : MimeTable :=
  match tbl with
  | [] => [(m, [fi])]
  | (k, fs) :: rest =>
    if k = m then (k, fs ++ [fi]) :: rest else (k, fs) :: tableInsert rest m fi

/-- The grouping table obtained by running the generic-bucket insertions of
the classification loop over `fis`, starting from table `t`. -/
def buildMimeTableFrom (t : MimeTable) (fis : List FileInfo) : MimeTable :=
  fis.foldl
    (fun t fi =>
      if classify fi = Bucket.genericMime then tableInsert t fi.mimeType.name fi else t)
    t

/-- The grouping table produced by one pass of the classification loop:
every reference falling into the generic bucket is appended to its MIME
type's group. -/
def buildMimeTable (fis : List FileInfo) : MimeTable :=
  buildMimeTableFrom [] fis

/-- Lookup in the grouping table. -/
def tblLookup : MimeTable → String → Option (List FileInfo)
  | [], _ => none
  | (k, fs) :: rest, m => if k = m then some fs else tblLookup rest m

/-- The keys of the grouping table. -/
def tblKeys (t : MimeTable) : List String :=
  t.map Prod.fst

/-- The generic-bucket references among `fis` whose MIME-type name is `m`. -/
def genericFilesOf (fis : List FileInfo) (m : String) : List FileInfo :=
  fis.filter (fun fi => decide (classify fi = Bucket.genericMime ∧ fi.mimeType.name = m))

/-- The application obtained for one MIME group: the platform default for the
type, else whatever `chooseApp` yields. -/
def appForGroup (ops : LauncherOps) (plat : Platform)
    (m : String) (files : List FileInfo) : Option AppInfo :=
  match plat.defaultForType m with
  | some a => some a
  | none => ops.chooseApp files m

/-- The per-group loop over the grouping table in `launchFiles`: resolve an
application once per group and, when one is obtained, launch it once with all
of the group's paths. -/
def mimePhase (ops : LauncherOps) (plat : Platform) : MimeTable → List Event
  | [] => []
  | (m, files) :: rest =>
    (match appForGroup ops plat m files with
     | some a => (launchWithApp ops plat (some a) (files.map FileInfo.path)).1
     | none => []) ++ mimePhase ops plat rest

/-- The events one grouping-table entry produces in the per-group loop. -/
def groupEvents (ops : LauncherOps) (plat : Platform)
    (g : String × List FileInfo) : List Event :=
  match appForGroup ops plat g.1 g.2 with
  | some a => (launchWithApp ops plat (some a) (g.2.map FileInfo.path)).1
  | none => []

/-- Recognizer for `launch` (i.e. `g_app_info_launch_uris`) events. -/
def isLaunchEvent : Event → Bool
  | Event.launch _ _ _ => true
  | _ => false

/-- The accumulator of the classification loop: the event trace so far, the
folder batch, the grouping table, the queued paths, and the working
directory. -/
structure ClassifyAcc where
  events : List Event
  folders : List FileInfo
  table : MimeTable
  paths : List FPath
  cwd : String

/-- The type of the recursive `launchPaths` continuation (a fuel-indexed
instance is supplied inside `launchFilesF`). -/
def RecPaths := List FPath → String → Option (List Event × Bool × String)

/-- `BasicFileLauncher::launchDesktopEntry(const FileInfoPtr&, ...)`,
parametric in the `launchPaths` continuation used by the executable-shortcut
branch.  An executable entry obtains a user decision (short-circuited by
`quickExec_`); direct/terminal execution of a shortcut resolves and re-queues
its target, of a non-shortcut resolves the registry identifier (the target
string if non-empty, else the local path); a non-executable entry is only
launched when native or under the `menu:` scheme. -/
def launchDesktopEntryInfo (ops : LauncherOps) (plat : Platform) (recPaths : RecPaths)
    (fi : FileInfo) (paths : List FPath) (cwd : String) :
    Option (List Event × Bool × String) :=
  let target := fi.target
  if fi.isExecutableType then
    let act := if ops.quickExec then ExecAction.DIRECT_EXEC else ops.askExecFile fi
    match act with
    | ExecAction.EXEC_IN_TERMINAL | ExecAction.DIRECT_EXEC =>
      if fi.isShortcut then
        let r := handleShortcut ops plat fi
        match r.2 with
        | some p =>
          match recPaths [p] cwd with
          | none => none
          | some (evs2, _, cwd2) => some (r.1 ++ evs2, false, cwd2)
        | none => some (r.1, false, cwd)
      else
        match (if target ≠ "" then some target else fi.path.localPath) with
        | some name =>
          let r := launchDesktopEntryName ops plat name paths
          some (r.1, r.2, cwd)
        | none => some ([], false, cwd)
    | ExecAction.OPEN_WITH_DEFAULT_APP =>
      let r := launchWithDefaultApp ops plat fi
      some (r.1, r.2, cwd)
    | ExecAction.CANCEL => some ([], false, cwd)
  else if fi.isNative || fi.path.hasUriScheme "menu" then
    match (if target ≠ "" then some target else fi.path.localPath) with
    | some name =>
      let r := launchDesktopEntryName ops plat name paths
      some (r.1, r.2, cwd)
    | none => some ([], false, cwd)
  else some ([], false, cwd)

/-- One iteration of the classification loop of `launchFiles`: the if-else
chain over the reference's flags, updating the accumulator. -/
def processOne (ops : LauncherOps) (plat : Platform) (recPaths : RecPaths)
    (acc : ClassifyAcc) (fi : FileInfo) : Option ClassifyAcc :=
  if fi.isDir then
    some { acc with folders := acc.folders ++ [fi] }
  else if fi.isMountable then
    if fi.target = "" then
      let h := ops.showError ErrKind.notMounted (some fi.path) (some fi)
      let ev := Event.showErr ErrKind.notMounted (some fi.path) (some fi) h
      if h then
        some { acc with events := acc.events ++ [ev], paths := acc.paths ++ [fi.path] }
      else
        some { acc with events := acc.events ++ [ev] }
    else
      some { acc with paths := acc.paths ++ [FPath.fromPathStr fi.target] }
  else if fi.isDesktopEntry then
    match launchDesktopEntryInfo ops plat recPaths fi [] acc.cwd with
    | none => none
    | some (evs, _, cwd2) => some { acc with events := acc.events ++ evs, cwd := cwd2 }
  else if fi.isExecutableType then
    let r := launchExecutable ops plat fi acc.cwd
    some { acc with events := acc.events ++ r.1, cwd := r.2.2 }
  else if fi.isShortcut then
    let r := handleShortcut ops plat fi
    some { acc with events := acc.events ++ r.1, paths := acc.paths ++ r.2.toList }
  else
    some { acc with table := tableInsert acc.table fi.mimeType.name fi }

/-- The same iteration organised by bucket: the branch actually executed for a
reference is exactly the one its `classify` bucket dictates. -/
def processOneByBucket (ops : LauncherOps) (plat : Platform) (recPaths : RecPaths)
    (acc : ClassifyAcc) (fi : FileInfo) : Option ClassifyAcc :=
  match classify fi with
  | Bucket.directory => some { acc with folders := acc.folders ++ [fi] }
  | Bucket.mountablePending =>
    let h := ops.showError ErrKind.notMounted (some fi.path) (some fi)
    let ev := Event.showErr ErrKind.notMounted (some fi.path) (some fi) h
    if h then
      some { acc with events := acc.events ++ [ev], paths := acc.paths ++ [fi.path] }
    else
      some { acc with events := acc.events ++ [ev] }
  | Bucket.mountableResolved =>
    some { acc with paths := acc.paths ++ [FPath.fromPathStr fi.target] }
  | Bucket.desktopEntry =>
    match launchDesktopEntryInfo ops plat recPaths fi [] acc.cwd with
    | none => none
    | some (evs, _, cwd2) => some { acc with events := acc.events ++ evs, cwd := cwd2 }
  | Bucket.executable =>
    let r := launchExecutable ops plat fi acc.cwd
    some { acc with events := acc.events ++ r.1, cwd := r.2.2 }
  | Bucket.shortcut =>
    let r := handleShortcut ops plat fi
    some { acc with events := acc.events ++ r.1, paths := acc.paths ++ r.2.toList }
  | Bucket.genericMime =>
    some { acc with table := tableInsert acc.table fi.mimeType.name fi }

/-- The paths one reference contributes to `pathsToLaunch`. -/
def itemQueuedPaths (ops : LauncherOps) (plat : Platform) (fi : FileInfo) : List FPath :=
  match classify fi with
  | Bucket.mountablePending =>
    if ops.showError ErrKind.notMounted (some fi.path) (some fi) then [fi.path] else []
  | Bucket.mountableResolved => [FPath.fromPathStr fi.target]
  | Bucket.shortcut => ((handleShortcut ops plat fi).2).toList
  | _ => []

/-- `BasicFileLauncher::launchFiles`, with fuel bounding the depth of the
`launchPaths` re-dispatch recursion (`none` = fuel exhausted, the C++ code
diverges).  The returned triple is the event trace, the boolean result and
the final working directory.  `launchPathsF` below is the corresponding
`launchPaths`: it fetches fresh file infos for the queued paths (the blocking
`FileInfoJob`) and re-enters `launchFiles`. -/
def launchFilesF (ops : LauncherOps) (plat : Platform) :
    Nat → List FileInfo → String → Option (List Event × Bool × String)
  | 0, _, _ => none
  | fuel + 1, fileInfos, cwd =>
    let recPaths : RecPaths := fun ps c =>
      match launchFilesF ops plat fuel (ps.map plat.fileInfoFor) c with
      | none => none
      | some (evs, _, c2) => some (Event.fetchInfos ps :: evs, false, c2)
    match fileInfos.foldlM (processOne ops plat recPaths)
        { events := [], folders := [], table := [], paths := [], cwd := cwd } with
    | none => none
    | some acc =>
      let folderEvs : List Event :=
        if acc.folders.isEmpty then [] else (openFolder ops plat acc.folders).1
      let mimeEvs := mimePhase ops plat acc.table
      if acc.paths.isEmpty then
        some (acc.events ++ folderEvs ++ mimeEvs, true, acc.cwd)
      else
        match recPaths acc.paths acc.cwd with
        | none => none
        | some (evs, _, cwd2) =>
          some (acc.events ++ folderEvs ++ mimeEvs ++ evs, true, cwd2)

/-- `BasicFileLauncher::launchPaths` at a given fuel. -/
def launchPathsF (ops : LauncherOps) (plat : Platform)
    (fuel : Nat) (paths : List FPath) (cwd : String) :
    Option (List Event × Bool × String) :=
  match launchFilesF ops plat fuel (paths.map plat.fileInfoFor) cwd with
  | none => none
  | some (evs, _, c2) => some (Event.fetchInfos paths :: evs, false, c2)

/-- A platform oracle on which every lookup fails, every launch fails, and
every `chdir` succeeds; file infos default to a plain generic file. -/
def genericInfo : FileInfo :=
  { path := { uri := "file:///x", localPath := some "/x" }
    target := ""
    mimeType := { name := "text/plain" }
    isDir := false, isMountable := false, isDesktopEntry := false
    isExecutableType := false, isShortcut := false, isNative := true }

def emptyPlatform : Platform :=
  { defaultForType := fun _ => none
    defaultForUriScheme := fun _ => none
    desktopAppFromFilename := fun _ => none
    desktopAppFromId := fun _ => none
    launchUrisOk := fun _ _ => false
    fileTestExecutable := fun _ => false
    createFromCommandline := fun _ _ => none
    appInfoLaunchOk := fun _ => false
    chdirOk := fun _ => true
    fileInfoFor := fun _ => genericInfo }

/-! ## Shared lemmas -/

lemma inBucket_classify (fi : FileInfo) : inBucket fi (classify fi) = true := by
  obtain ⟨p, t, m, d, mnt, de, ex, sc, nv⟩ := fi
  by_cases ht : t = "" <;>
    cases d <;> cases mnt <;> cases de <;> cases ex <;> cases sc <;>
      simp_all [classify, inBucket]

lemma inBucket_unique (fi : FileInfo) (b : Bucket) (h : inBucket fi b = true) :
    b = classify fi := by
  obtain ⟨p, t, m, d, mnt, de, ex, sc, nv⟩ := fi
  cases b <;>
    (by_cases ht : t = "" <;>
      cases d <;> cases mnt <;> cases de <;> cases ex <;> cases sc <;>
        simp_all [classify, inBucket])

lemma processOne_eq_bucket (ops : LauncherOps) (plat : Platform) (rp : RecPaths)
    (acc : ClassifyAcc) (fi : FileInfo) :
    processOne ops plat rp acc fi = processOneByBucket ops plat rp acc fi := by
  obtain ⟨p, t, m, d, mnt, de, ex, sc, nv⟩ := fi
  by_cases ht : t = "" <;>
    cases d <;> cases mnt <;> cases de <;> cases ex <;> cases sc <;>
      simp_all [classify, processOne, processOneByBucket]

/-! ## C1 -/

/-- C1: every file reference handed to `launchFiles` falls into exactly one of
the seven classification buckets; the buckets are tested in the fixed priority
order directory > mountable > desktop-entry > executable > shortcut > generic
(`inBucket` spells out each bucket's priority context), and the loop body
processes every reference exactly as its unique bucket dictates, so no
reference is processed under more than one bucket. -/
theorem claim1_classification_exclusive (fi : FileInfo) :
    inBucket fi (classify fi) = true
    ∧ (∀ b, inBucket fi b = true → b = classify fi)
    ∧ (∀ ops plat rp acc,
        processOne ops plat rp acc fi = processOneByBucket ops plat rp acc fi) :=
  ⟨inBucket_classify fi, fun b hb => inBucket_unique fi b hb,
   fun ops plat rp acc => processOne_eq_bucket ops plat rp acc fi⟩

theorem claim1_witness : Bucket.genericMime = classify genericInfo :=
  (claim1_classification_exclusive genericInfo).2.1 Bucket.genericMime (by decide)

/-! ## C2 -/

/-- C2: whenever `launchFiles` terminates (any fuel, any inputs, any
launcher/platform behaviour), its boolean result is `true`; per-item and
per-batch failures only ever surface as `showErr` events in the trace. -/
theorem claim2_returns_true (ops : LauncherOps) (plat : Platform)
    (fuel : Nat) (fis : List FileInfo) (cwd : String)
    (evs : List Event) (b : Bool) (c : String)
    (h : launchFilesF ops plat fuel fis cwd = some (evs, b, c)) : b = true := by
  cases fuel with
  | zero => simp [launchFilesF] at h
  | succ n =>
    simp only [launchFilesF] at h
    split at h
    · exact Option.noConfusion h
    · split at h
      · injection h with h1
        injection h1 with _ h2
        injection h2 with h3 _
        exact h3.symm
      · split at h
        · exact Option.noConfusion h
        · injection h with h1
          injection h1 with _ h2
          injection h2 with h3 _
          exact h3.symm

theorem claim2_witness : (true : Bool) = true :=
  claim2_returns_true baseOps emptyPlatform 1 [] "/" [] true "/" (by rfl)

/-! ## C4 -/

/-- C4: shortcut resolution returns a queueable path exactly when the target
URI has no scheme (bare local path) or one of the schemes `file`, `trash`,
`network`, `computer` (converted from the URI); for every other scheme it
returns the invalid path and instead immediately launches the scheme's
default handler with the raw URI, so such a shortcut is never queued. -/
theorem claim4_shortcut_resolution (ops : LauncherOps) (plat : Platform) (fi : FileInfo) :
    (uriParseScheme fi.target = none →
      handleShortcut ops plat fi = ([], some (FPath.fromLocalPath fi.target)))
    ∧ (∀ s, uriParseScheme fi.target = some s →
        ((s = "file" ∨ s = "trash" ∨ s = "network" ∨ s = "computer") →
          handleShortcut ops plat fi = ([], some (FPath.fromUri fi.target)))
        ∧ (¬(s = "file" ∨ s = "trash" ∨ s = "network" ∨ s = "computer") →
          handleShortcut ops plat fi =
            ((launchWithApp ops plat (plat.defaultForUriScheme s)
                [FPath.fromUri fi.target]).1, none))) := by
  constructor
  · intro h
    simp [handleShortcut, h]
  · intro s hs
    constructor
    · intro hloc
      simp [handleShortcut, hs, hloc]
    · intro hnl
      simp [handleShortcut, hs, hnl]

theorem claim4_witness :
    (handleShortcut baseOps emptyPlatform
        { genericInfo with target := "file:///tmp/a" }
      = ([], some (FPath.fromUri "file:///tmp/a")))
    ∧ (handleShortcut baseOps emptyPlatform
        { genericInfo with target := "mailto:user@host" }
      = ((launchWithApp baseOps emptyPlatform none
            [FPath.fromUri "mailto:user@host"]).1, none))
    ∧ (handleShortcut baseOps emptyPlatform
        { genericInfo with target := "/tmp/b" }
      = ([], some (FPath.fromLocalPath "/tmp/b"))) := by
  refine ⟨?_, ?_, ?_⟩
  · exact ((claim4_shortcut_resolution baseOps emptyPlatform
      { genericInfo with target := "file:///tmp/a" }).2 "file" (by decide)).1 (by decide)
  · have h := ((claim4_shortcut_resolution baseOps emptyPlatform
      { genericInfo with target := "mailto:user@host" }).2 "mailto" (by decide)).2 (by decide)
    simpa [emptyPlatform] using h
  · exact (claim4_shortcut_resolution baseOps emptyPlatform
      { genericInfo with target := "/tmp/b" }).1 (by decide)

/-! ## C10 -/

/-- C10: for a shortcut whose target has a non-local scheme with no registered
default handler, `handleShortcut` hands the NULL application handle straight
to `launchWithApp`: the launch primitive is invoked with a null application
and the raw URI, no no-application-available error is reported first, and the
shortcut is not queued. -/
theorem claim10_null_handler_launch (ops : LauncherOps) (plat : Platform)
    (fi : FileInfo) (s : String)
    (hs : uriParseScheme fi.target = some s)
    (hnl : ¬(s = "file" ∨ s = "trash" ∨ s = "network" ∨ s = "computer"))
    (hno : plat.defaultForUriScheme s = none) :
    (handleShortcut ops plat fi).2 = none
    ∧ (handleShortcut ops plat fi).1.head?
        = some (Event.launch none [FPath.fromUri fi.target]
            (plat.launchUrisOk none [fi.target])) := by
  have h : handleShortcut ops plat fi =
      ((launchWithApp ops plat none [FPath.fromUri fi.target]).1, none) := by
    simp [handleShortcut, hs, hnl, hno]
  rw [h]
  constructor
  · rfl
  · by_cases hok : plat.launchUrisOk none [fi.target] = true <;>
      simp [launchWithApp, FPath.fromUri, FPath.uri, hok]

theorem claim10_witness :
    (handleShortcut baseOps emptyPlatform
        { genericInfo with target := "mailto:user@host" }).2 = none
    ∧ (handleShortcut baseOps emptyPlatform
        { genericInfo with target := "mailto:user@host" }).1.head?
        = some (Event.launch none [FPath.fromUri "mailto:user@host"] false) :=
  claim10_null_handler_launch baseOps emptyPlatform
    { genericInfo with target := "mailto:user@host" } "mailto"
    (by decide) (by decide) rfl

/-! ## Table lemmas (grouping by MIME type) -/

lemma tblLookup_insert (t : MimeTable) (m : String) (fi : FileInfo) (k : String) :
    tblLookup (tableInsert t m fi) k =
      if k = m then some ((tblLookup t k).getD [] ++ [fi]) else tblLookup t k := by
  induction t with
  | nil =>
    by_cases h : k = m
    · subst h; simp [tableInsert, tblLookup]
    · simp [tableInsert, tblLookup, h, Ne.symm h]
  | cons hd rest ih =>
    obtain ⟨kk, fs⟩ := hd
    by_cases h1 : kk = m <;> by_cases h2 : kk = k
    · subst h1; subst h2
      simp [tableInsert, tblLookup]
    · subst h1
      have h2' : ¬k = kk := fun hh => h2 hh.symm
      simp [tableInsert, tblLookup, h2, h2']
    · subst h2
      simp [tableInsert, tblLookup, h1]
    · simp [tableInsert, tblLookup, h1, h2, ih]

lemma tblKeys_insert (t : MimeTable) (m : String) (fi : FileInfo) :
    tblKeys (tableInsert t m fi) =
      if m ∈ tblKeys t then tblKeys t else tblKeys t ++ [m] := by
  induction t with
  | nil => simp [tableInsert, tblKeys]
  | cons hd rest ih =>
    obtain ⟨kk, fs⟩ := hd
    by_cases h1 : kk = m
    · subst h1
      simp [tableInsert, tblKeys]
    · have h1' : ¬m = kk := fun hh => h1 hh.symm
      by_cases hm : m ∈ tblKeys rest <;>
        simp [tableInsert, tblKeys, h1, h1', hm, ih, List.mem_cons] <;>
        simp_all [tblKeys]

lemma tblKeys_insert_nodup (t : MimeTable) (m : String) (fi : FileInfo)
    (h : (tblKeys t).Nodup) : (tblKeys (tableInsert t m fi)).Nodup := by
  rw [tblKeys_insert]
  split
  · exact h
  · next hm => simp [List.nodup_append, h, hm]

lemma buildMimeTableFrom_nodup (fis : List FileInfo) :
    ∀ t : MimeTable, (tblKeys t).Nodup → (tblKeys (buildMimeTableFrom t fis)).Nodup := by
  induction fis with
  | nil => intro t h; exact h
  | cons fi rest ih =>
    intro t h
    by_cases hg : classify fi = Bucket.genericMime
    · simpa [buildMimeTableFrom, hg] using
        ih (tableInsert t fi.mimeType.name fi) (tblKeys_insert_nodup t _ fi h)
    · simpa [buildMimeTableFrom, hg] using ih t h

lemma tblLookup_buildMimeTableFrom (fis : List FileInfo) :
    ∀ (t : MimeTable) (k : String),
      tblLookup (buildMimeTableFrom t fis) k =
        match tblLookup t k with
        | some fs => some (fs ++ genericFilesOf fis k)
        | none =>
          if genericFilesOf fis k = [] then none else some (genericFilesOf fis k) := by
  induction fis with
  | nil =>
    intro t k
    cases h : tblLookup t k <;> simp [buildMimeTableFrom, genericFilesOf, h]
  | cons fi rest ih =>
    intro t k
    by_cases hg : classify fi = Bucket.genericMime
    · by_cases hk : fi.mimeType.name = k
      · have hstep : buildMimeTableFrom t (fi :: rest)
            = buildMimeTableFrom (tableInsert t fi.mimeType.name fi) rest := by
          simp [buildMimeTableFrom, hg]
        have hfil : genericFilesOf (fi :: rest) k = fi :: genericFilesOf rest k := by
          simp [genericFilesOf, hg, hk]
        rw [hstep, ih, hfil, tblLookup_insert]
        rw [if_pos hk.symm]
        cases h : tblLookup t k <;> simp [h]
      · have hstep : buildMimeTableFrom t (fi :: rest)
            = buildMimeTableFrom (tableInsert t fi.mimeType.name fi) rest := by
          simp [buildMimeTableFrom, hg]
        have hfil : genericFilesOf (fi :: rest) k = genericFilesOf rest k := by
          simp [genericFilesOf, hk]
        rw [hstep, ih, hfil, tblLookup_insert, if_neg (fun hkm => hk hkm.symm)]
    · have hstep : buildMimeTableFrom t (fi :: rest) = buildMimeTableFrom t rest := by
        simp [buildMimeTableFrom, hg]
      have hfil : genericFilesOf (fi :: rest) k = genericFilesOf rest k := by
        simp [genericFilesOf, hg]
      rw [hstep, ih, hfil]

lemma mem_tblLookup (t : MimeTable) (h : (tblKeys t).Nodup)
    (m : String) (fs : List FileInfo) (hm : (m, fs) ∈ t) :
    tblLookup t m = some fs := by
  induction t with
  | nil => simp at hm
  | cons hd rest ih =>
    obtain ⟨kk, gs⟩ := hd
    have hcons : kk ∉ tblKeys rest ∧ (tblKeys rest).Nodup := List.nodup_cons.mp h
    rcases List.mem_cons.mp hm with heq | hrest
    · injection heq with h1 h2
      subst h1; subst h2
      simp [tblLookup]
    · have hk : kk ≠ m := by
        intro hkm
        have hmem : m ∈ tblKeys rest := List.mem_map_of_mem Prod.fst hrest
        exact hcons.1 (hkm ▸ hmem)
      have hrec := ih hcons.2 hrest
      simp [tblLookup, hk, hrec]

lemma buildMimeTable_group (fis : List FileInfo) (m : String) (files : List FileInfo)
    (hm : (m, files) ∈ buildMimeTable fis) : files = genericFilesOf fis m := by
  have hnd : (tblKeys (buildMimeTable fis)).Nodup :=
    buildMimeTableFrom_nodup fis [] (by simp [tblKeys])
  have hl : tblLookup (buildMimeTable fis) m = some files :=
    mem_tblLookup _ hnd m files hm
  have hb := tblLookup_buildMimeTableFrom fis [] m
  rw [show buildMimeTableFrom [] fis = buildMimeTable fis from rfl] at hb
  rw [hl] at hb
  have hnil : tblLookup [] m = none := rfl
  rw [hnil] at hb
  by_cases he : genericFilesOf fis m = []
  · rw [if_pos he] at hb
    exact Option.noConfusion hb
  · rw [if_neg he] at hb
    exact Option.some.inj hb

lemma mimePhase_eq_flatMap (ops : LauncherOps) (plat : Platform) (t : MimeTable) :
    mimePhase ops plat t = t.flatMap (groupEvents ops plat) := by
  induction t with
  | nil => simp [mimePhase]
  | cons g rest ih =>
    obtain ⟨m, files⟩ := g
    simp only [mimePhase, groupEvents, List.flatMap_cons, ih]

lemma launchWithApp_launch_events (ops : LauncherOps) (plat : Platform)
    (a : Option AppInfo) (ps : List FPath) :
    (launchWithApp ops plat a ps).1.filter isLaunchEvent
      = [Event.launch a ps (plat.launchUrisOk a ((ps.map FPath.uri).reverse))] := by
  simp only [launchWithApp]
  by_cases hok : plat.launchUrisOk a ((ps.map FPath.uri).reverse) = true
  · simp [hok, isLaunchEvent]
  · rw [Bool.not_eq_true] at hok
    cases ps with
    | nil => simp_all [isLaunchEvent]
    | cons p t => simp_all [isLaunchEvent]

/-! ## Per-item and fold decomposition lemmas -/

lemma processOne_dir (ops : LauncherOps) (plat : Platform) (rp : RecPaths)
    (acc : ClassifyAcc) (fi : FileInfo) (h : classify fi = Bucket.directory) :
    processOne ops plat rp acc fi = some { acc with folders := acc.folders ++ [fi] } := by
  rw [processOne_eq_bucket]
  unfold processOneByBucket
  rw [h]

lemma processOne_mountPending (ops : LauncherOps) (plat : Platform) (rp : RecPaths)
    (acc : ClassifyAcc) (fi : FileInfo) (h : classify fi = Bucket.mountablePending) :
    processOne ops plat rp acc fi =
      some { acc with
             events := acc.events ++
               [Event.showErr ErrKind.notMounted (some fi.path) (some fi)
                 (ops.showError ErrKind.notMounted (some fi.path) (some fi))],
             paths := acc.paths ++
               (if ops.showError ErrKind.notMounted (some fi.path) (some fi)
                then [fi.path] else []) } := by
  rw [processOne_eq_bucket]
  unfold processOneByBucket
  rw [h]
  by_cases hh : ops.showError ErrKind.notMounted (some fi.path) (some fi) <;> simp [hh]

lemma processOne_mountResolved (ops : LauncherOps) (plat : Platform) (rp : RecPaths)
    (acc : ClassifyAcc) (fi : FileInfo) (h : classify fi = Bucket.mountableResolved) :
    processOne ops plat rp acc fi =
      some { acc with paths := acc.paths ++ [FPath.fromPathStr fi.target] } := by
  rw [processOne_eq_bucket]
  unfold processOneByBucket
  rw [h]

lemma processOne_desktop (ops : LauncherOps) (plat : Platform) (rp : RecPaths)
    (acc : ClassifyAcc) (fi : FileInfo) (h : classify fi = Bucket.desktopEntry) :
    processOne ops plat rp acc fi =
      match launchDesktopEntryInfo ops plat rp fi [] acc.cwd with
      | none => none
      | some (evs, _, cwd2) =>
        some { acc with events := acc.events ++ evs, cwd := cwd2 } := by
  rw [processOne_eq_bucket]
  unfold processOneByBucket
  rw [h]

lemma processOne_exec (ops : LauncherOps) (plat : Platform) (rp : RecPaths)
    (acc : ClassifyAcc) (fi : FileInfo) (h : classify fi = Bucket.executable) :
    processOne ops plat rp acc fi =
      some { acc with
             events := acc.events ++ (launchExecutable ops plat fi acc.cwd).1,
             cwd := (launchExecutable ops plat fi acc.cwd).2.2 } := by
  rw [processOne_eq_bucket]
  unfold processOneByBucket
  rw [h]

lemma processOne_shortcutCase (ops : LauncherOps) (plat : Platform) (rp : RecPaths)
    (acc : ClassifyAcc) (fi : FileInfo) (h : classify fi = Bucket.shortcut) :
    processOne ops plat rp acc fi =
      some { acc with
             events := acc.events ++ (handleShortcut ops plat fi).1,
             paths := acc.paths ++ ((handleShortcut ops plat fi).2).toList } := by
  rw [processOne_eq_bucket]
  unfold processOneByBucket
  rw [h]

lemma processOne_generic (ops : LauncherOps) (plat : Platform) (rp : RecPaths)
    (acc : ClassifyAcc) (fi : FileInfo) (h : classify fi = Bucket.genericMime) :
    processOne ops plat rp acc fi =
      some { acc with table := tableInsert acc.table fi.mimeType.name fi } := by
  rw [processOne_eq_bucket]
  unfold processOneByBucket
  rw [h]

lemma processOne_paths (ops : LauncherOps) (plat : Platform) (rp : RecPaths)
    (acc : ClassifyAcc) (fi : FileInfo) (acc' : ClassifyAcc)
    (h : processOne ops plat rp acc fi = some acc') :
    acc'.paths = acc.paths ++ itemQueuedPaths ops plat fi := by
  unfold itemQueuedPaths
  cases hc : classify fi
  · rw [processOne_dir ops plat rp acc fi hc] at h
    injection h with h1; rw [← h1]; simp
  · rw [processOne_mountPending ops plat rp acc fi hc] at h
    injection h with h1; rw [← h1]
  · rw [processOne_mountResolved ops plat rp acc fi hc] at h
    injection h with h1; rw [← h1]
  · rw [processOne_desktop ops plat rp acc fi hc] at h
    cases hd : launchDesktopEntryInfo ops plat rp fi [] acc.cwd with
    | none => rw [hd] at h; exact Option.noConfusion h
    | some r =>
      obtain ⟨evs, b, cwd2⟩ := r
      rw [hd] at h
      injection h with h1; rw [← h1]; simp
  · rw [processOne_exec ops plat rp acc fi hc] at h
    injection h with h1; rw [← h1]; simp
  · rw [processOne_shortcutCase ops plat rp acc fi hc] at h
    injection h with h1; rw [← h1]
  · rw [processOne_generic ops plat rp acc fi hc] at h
    injection h with h1; rw [← h1]; simp

lemma processOne_table (ops : LauncherOps) (plat : Platform) (rp : RecPaths)
    (acc : ClassifyAcc) (fi : FileInfo) (acc' : ClassifyAcc)
    (h : processOne ops plat rp acc fi = some acc') :
    acc'.table =
      if classify fi = Bucket.genericMime then tableInsert acc.table fi.mimeType.name fi
      else acc.table := by
  cases hc : classify fi
  · rw [processOne_dir ops plat rp acc fi hc] at h
    injection h with h1; rw [← h1]; simp [hc]
  · rw [processOne_mountPending ops plat rp acc fi hc] at h
    injection h with h1; rw [← h1]; simp [hc]
  · rw [processOne_mountResolved ops plat rp acc fi hc] at h
    injection h with h1; rw [← h1]; simp [hc]
  · rw [processOne_desktop ops plat rp acc fi hc] at h
    cases hd : launchDesktopEntryInfo ops plat rp fi [] acc.cwd with
    | none => rw [hd] at h; exact Option.noConfusion h
    | some r =>
      obtain ⟨evs, b, cwd2⟩ := r
      rw [hd] at h
      injection h with h1; rw [← h1]; simp [hc]
  · rw [processOne_exec ops plat rp acc fi hc] at h
    injection h with h1; rw [← h1]; simp [hc]
  · rw [processOne_shortcutCase ops plat rp acc fi hc] at h
    injection h with h1; rw [← h1]; simp [hc]
  · rw [processOne_generic ops plat rp acc fi hc] at h
    injection h with h1; rw [← h1]; simp [hc]

lemma foldlM_paths (ops : LauncherOps) (plat : Platform) (rp : RecPaths)
    (fis : List FileInfo) :
    ∀ (acc acc' : ClassifyAcc),
      List.foldlM (processOne ops plat rp) acc fis = some acc' →
        acc'.paths = acc.paths ++ fis.flatMap (itemQueuedPaths ops plat) := by
  induction fis with
  | nil =>
    intro acc acc' h
    simp only [List.foldlM_nil] at h
    injection h with h1
    rw [← h1]; simp
  | cons fi rest ih =>
    intro acc acc' h
    simp only [List.foldlM_cons] at h
    cases hstep : processOne ops plat rp acc fi with
    | none => rw [hstep] at h; exact Option.noConfusion h
    | some acc1 =>
      rw [hstep] at h
      have h2 := ih acc1 acc' h
      rw [h2, processOne_paths ops plat rp acc fi acc1 hstep]
      simp

lemma foldlM_table (ops : LauncherOps) (plat : Platform) (rp : RecPaths)
    (fis : List FileInfo) :
    ∀ (acc acc' : ClassifyAcc),
      List.foldlM (processOne ops plat rp) acc fis = some acc' →
        acc'.table = buildMimeTableFrom acc.table fis := by
  induction fis with
  | nil =>
    intro acc acc' h
    simp only [List.foldlM_nil] at h
    injection h with h1
    rw [← h1]; simp [buildMimeTableFrom]
  | cons fi rest ih =>
    intro acc acc' h
    simp only [List.foldlM_cons] at h
    cases hstep : processOne ops plat rp acc fi with
    | none => rw [hstep] at h; exact Option.noConfusion h
    | some acc1 =>
      rw [hstep] at h
      have h2 := ih acc1 acc' h
      rw [h2, processOne_table ops plat rp acc fi acc1 hstep]
      by_cases hg : classify fi = Bucket.genericMime <;>
        simp [buildMimeTableFrom, hg]

/-! ## C3 -/

/-- C3: a mountable reference with an empty target has a not-mounted error
reported (one `showErr` event); when the Error Surface leaves it unhandled the
reference contributes nothing to the launch queue (and, by the fold
decomposition in the last conjunct, the queue of a whole dispatch is exactly
the concatenation of per-item contributions, so the skipped reference appears
in no subsequent launch invocation); when handled, the reference's own path is
queued.  A mountable reference with a non-empty target has its target path
queued directly, with no error reported. -/
theorem claim3_mountable_handling (ops : LauncherOps) (plat : Platform) (rp : RecPaths)
    (fi : FileInfo) (hd : fi.isDir = false) (hm : fi.isMountable = true) :
    (fi.target = "" →
      (∀ acc, processOne ops plat rp acc fi =
        some { acc with
               events := acc.events ++
                 [Event.showErr ErrKind.notMounted (some fi.path) (some fi)
                   (ops.showError ErrKind.notMounted (some fi.path) (some fi))],
               paths := acc.paths ++
                 (if ops.showError ErrKind.notMounted (some fi.path) (some fi)
                  then [fi.path] else []) })
      ∧ itemQueuedPaths ops plat fi =
          (if ops.showError ErrKind.notMounted (some fi.path) (some fi)
           then [fi.path] else []))
    ∧ (fi.target ≠ "" →
        (∀ acc, processOne ops plat rp acc fi =
          some { acc with paths := acc.paths ++ [FPath.fromPathStr fi.target] })
        ∧ itemQueuedPaths ops plat fi = [FPath.fromPathStr fi.target])
    ∧ (∀ fis acc acc',
        List.foldlM (processOne ops plat rp) acc fis = some acc' →
          acc'.paths = acc.paths ++ fis.flatMap (itemQueuedPaths ops plat)) := by
  refine ⟨fun ht => ⟨fun acc => ?_, ?_⟩, fun ht => ⟨fun acc => ?_, ?_⟩, ?_⟩
  · exact processOne_mountPending ops plat rp acc fi (by simp [classify, hd, hm, ht])
  · have hc : classify fi = Bucket.mountablePending := by simp [classify, hd, hm, ht]
    simp [itemQueuedPaths, hc]
  · exact processOne_mountResolved ops plat rp acc fi (by simp [classify, hd, hm, ht])
  · have hc : classify fi = Bucket.mountableResolved := by simp [classify, hd, hm, ht]
    simp [itemQueuedPaths, hc]
  · exact fun fis acc acc' h => foldlM_paths ops plat rp fis acc acc' h

/-- A mountable reference whose target is still empty. -/
def mountPendingInfo : FileInfo :=
  { genericInfo with isMountable := true }

theorem claim3_witness :
    itemQueuedPaths baseOps emptyPlatform mountPendingInfo = [] := by
  have h := ((claim3_mountable_handling baseOps emptyPlatform
      (fun _ _ => none) mountPendingInfo rfl rfl).1 rfl).2
  simpa [baseOps] using h

/-! ## C5 -/

/-- C5: the grouping table has pairwise-distinct MIME-type keys (so the
default-application lookup in the per-group loop runs exactly once per
distinct MIME-type name), every group holds exactly the generic-bucket inputs
with that MIME type, `chooseApp` is consulted exactly when no platform
default exists, the per-group loop emits the per-group events in sequence,
and an obtained application is invoked exactly once, with the full list of
the group's paths (one `launch` event per `launchWithApp` call).  The last
conjunct ties the table processed by `launchFiles` to `buildMimeTable`. -/
theorem claim5_mime_batching (ops : LauncherOps) (plat : Platform) :
    (∀ fis, (tblKeys (buildMimeTable fis)).Nodup
      ∧ ∀ m files, (m, files) ∈ buildMimeTable fis → files = genericFilesOf fis m)
    ∧ (∀ t, mimePhase ops plat t = t.flatMap (groupEvents ops plat))
    ∧ (∀ m files a, plat.defaultForType m = some a →
        appForGroup ops plat m files = some a)
    ∧ (∀ m files, plat.defaultForType m = none →
        appForGroup ops plat m files = ops.chooseApp files m)
    ∧ (∀ m files a, appForGroup ops plat m files = some a →
        groupEvents ops plat (m, files) =
          (launchWithApp ops plat (some a) (files.map FileInfo.path)).1)
    ∧ (∀ a ps, (launchWithApp ops plat a ps).1.filter isLaunchEvent
        = [Event.launch a ps (plat.launchUrisOk a ((ps.map FPath.uri).reverse))])
    ∧ (∀ rp fis acc acc',
        List.foldlM (processOne ops plat rp) acc fis = some acc' →
          acc'.table = buildMimeTableFrom acc.table fis) := by
  refine ⟨fun fis => ⟨?_, fun m files hm => buildMimeTable_group fis m files hm⟩,
    fun t => mimePhase_eq_flatMap ops plat t,
    fun m files a h => by simp [appForGroup, h],
    fun m files h => by simp [appForGroup, h],
    fun m files a h => by simp [groupEvents, h],
    fun a ps => launchWithApp_launch_events ops plat a ps,
    fun rp fis acc acc' h => foldlM_table ops plat rp fis acc acc' h⟩
  exact buildMimeTableFrom_nodup fis [] (by simp [tblKeys])

theorem claim5_witness :
    [genericInfo] = genericFilesOf [genericInfo] "text/plain" :=
  ((claim5_mime_batching baseOps emptyPlatform).1 [genericInfo]).2
    "text/plain" [genericInfo] (by decide)

/-! ## C6 -/

/-- The desktop-entry identifier computed by `launchDesktopEntry`: the target
string when non-empty, else the local filesystem path (NULL when the file has
no local path). -/
def registryIdent (fi : FileInfo) : Option String :=
  if fi.target ≠ "" then some fi.target else fi.path.localPath

lemma launchWithApp_no_desktop (ops : LauncherOps) (plat : Platform)
    (a : Option AppInfo) (ps : List FPath) (n : String) :
    Event.desktopLaunch n ∉ (launchWithApp ops plat a ps).1 := by
  simp only [launchWithApp]
  by_cases hok : plat.launchUrisOk a ((ps.map FPath.uri).reverse) = true
  · simp [hok]
  · rw [Bool.not_eq_true] at hok
    cases ps with
    | nil => simp_all
    | cons p t => simp_all

lemma launchWithDefaultApp_no_desktop (ops : LauncherOps) (plat : Platform)
    (fi : FileInfo) (n : String) :
    Event.desktopLaunch n ∉ (launchWithDefaultApp ops plat fi).1 := by
  unfold launchWithDefaultApp
  cases h : plat.defaultForType fi.mimeType.name with
  | none => simp
  | some a => exact launchWithApp_no_desktop ops plat (some a) [fi.path] n

lemma launchDesktopEntryName_events (ops : LauncherOps) (plat : Platform)
    (name : String) (ps : List FPath) :
    ((launchDesktopEntryName ops plat name ps).1).head? = some (Event.desktopLaunch name)
    ∧ ∀ n, Event.desktopLaunch n ∈ (launchDesktopEntryName ops plat name ps).1 →
        n = name := by
  unfold launchDesktopEntryName
  cases h : (if pathIsAbsolute name then plat.desktopAppFromFilename name
             else plat.desktopAppFromId name) with
  | none => simp
  | some a =>
    refine ⟨by simp, fun n hn => ?_⟩
    simp only at hn
    rcases List.mem_cons.mp hn with heq | hmem
    · injection heq
    · exact absurd hmem (launchWithApp_no_desktop ops plat (some a) ps n)

lemma ldei_exec_ident (ops : LauncherOps) (plat : Platform) (rp : RecPaths)
    (fi : FileInfo) (paths : List FPath) (cwd : String)
    (hs : fi.isShortcut = false) (hx : fi.isExecutableType = true)
    (ha : (if ops.quickExec then ExecAction.DIRECT_EXEC else ops.askExecFile fi)
            = ExecAction.DIRECT_EXEC
        ∨ (if ops.quickExec then ExecAction.DIRECT_EXEC else ops.askExecFile fi)
            = ExecAction.EXEC_IN_TERMINAL) :
    launchDesktopEntryInfo ops plat rp fi paths cwd =
      match registryIdent fi with
      | some name =>
        some ((launchDesktopEntryName ops plat name paths).1,
              (launchDesktopEntryName ops plat name paths).2, cwd)
      | none => some ([], false, cwd) := by
  unfold launchDesktopEntryInfo registryIdent
  rcases ha with h | h <;> rw [hx] <;> simp only [if_true] <;> rw [h] <;>
    simp [hs]

lemma ldei_nonexec_ident (ops : LauncherOps) (plat : Platform) (rp : RecPaths)
    (fi : FileInfo) (paths : List FPath) (cwd : String)
    (hx : fi.isExecutableType = false)
    (hn : fi.isNative = true ∨ fi.path.hasUriScheme "menu" = true) :
    launchDesktopEntryInfo ops plat rp fi paths cwd =
      match registryIdent fi with
      | some name =>
        some ((launchDesktopEntryName ops plat name paths).1,
              (launchDesktopEntryName ops plat name paths).2, cwd)
      | none => some ([], false, cwd) := by
  unfold launchDesktopEntryInfo registryIdent
  rcases hn with h | h <;> simp [hx, h]

lemma ldei_nonexec_skip (ops : LauncherOps) (plat : Platform) (rp : RecPaths)
    (fi : FileInfo) (paths : List FPath) (cwd : String)
    (hx : fi.isExecutableType = false)
    (hn : fi.isNative = false) (hmenu : fi.path.hasUriScheme "menu" = false) :
    launchDesktopEntryInfo ops plat rp fi paths cwd = some ([], false, cwd) := by
  unfold launchDesktopEntryInfo
  simp [hx, hn, hmenu]

/-- C6: for every non-shortcut desktop-entry reference, whenever
`launchDesktopEntry` reaches the registry (`desktopLaunch` event), the
identifier it hands over is the reference's target string when non-empty and
otherwise its local filesystem path (first conjunct); direct/terminal
execution of an executable entry, and a non-executable entry that is native
or `menu:`-schemed, resolve through exactly that identifier (second and third
conjuncts); a non-executable entry that is neither native nor `menu:`-schemed
is not launched as a desktop entry (fourth conjunct); the identifier of the
registry hand-off is the first event of the registry launch path (fifth
conjunct). -/
theorem claim6_registry_identifier (ops : LauncherOps) (plat : Platform)
    (rp : RecPaths) (fi : FileInfo) (paths : List FPath) (cwd : String)
    (hs : fi.isShortcut = false) :
    (∀ evs b c name, launchDesktopEntryInfo ops plat rp fi paths cwd = some (evs, b, c) →
        Event.desktopLaunch name ∈ evs →
        (fi.target ≠ "" ∧ name = fi.target)
        ∨ (fi.target = "" ∧ fi.path.localPath = some name))
    ∧ (fi.isExecutableType = true →
        ((if ops.quickExec then ExecAction.DIRECT_EXEC else ops.askExecFile fi)
            = ExecAction.DIRECT_EXEC
          ∨ (if ops.quickExec then ExecAction.DIRECT_EXEC else ops.askExecFile fi)
            = ExecAction.EXEC_IN_TERMINAL) →
        launchDesktopEntryInfo ops plat rp fi paths cwd =
          match registryIdent fi with
          | some name =>
            some ((launchDesktopEntryName ops plat name paths).1,
                  (launchDesktopEntryName ops plat name paths).2, cwd)
          | none => some ([], false, cwd))
    ∧ (fi.isExecutableType = false →
        (fi.isNative = true ∨ fi.path.hasUriScheme "menu" = true) →
        launchDesktopEntryInfo ops plat rp fi paths cwd =
          match registryIdent fi with
          | some name =>
            some ((launchDesktopEntryName ops plat name paths).1,
                  (launchDesktopEntryName ops plat name paths).2, cwd)
          | none => some ([], false, cwd))
    ∧ (fi.isExecutableType = false → fi.isNative = false →
        fi.path.hasUriScheme "menu" = false →
        launchDesktopEntryInfo ops plat rp fi paths cwd = some ([], false, cwd))
    ∧ (∀ name ps, ((launchDesktopEntryName ops plat name ps).1).head?
        = some (Event.desktopLaunch name)) := by
  refine ⟨?_, ldei_exec_ident ops plat rp fi paths cwd hs,
    ldei_nonexec_ident ops plat rp fi paths cwd,
    ldei_nonexec_skip ops plat rp fi paths cwd,
    fun name ps => (launchDesktopEntryName_events ops plat name ps).1⟩
  intro evs b c name hres hmem
  have hident : ∀ (hid : launchDesktopEntryInfo ops plat rp fi paths cwd =
      match registryIdent fi with
      | some nm =>
        some ((launchDesktopEntryName ops plat nm paths).1,
              (launchDesktopEntryName ops plat nm paths).2, cwd)
      | none => some ([], false, cwd)),
      (fi.target ≠ "" ∧ name = fi.target)
      ∨ (fi.target = "" ∧ fi.path.localPath = some name) := by
    intro hid
    rw [hid] at hres
    cases hr : registryIdent fi with
    | none =>
      rw [hr] at hres
      injection hres with h1
      injection h1 with he _
      rw [← he] at hmem
      simp at hmem
    | some nm =>
      rw [hr] at hres
      injection hres with h1
      injection h1 with he _
      rw [← he] at hmem
      have hnm := (launchDesktopEntryName_events ops plat nm paths).2 name hmem
      subst hnm
      unfold registryIdent at hr
      by_cases ht : fi.target = ""
      · right
        refine ⟨ht, ?_⟩
        rw [if_neg (by simpa using ht)] at hr
        exact hr
      · left
        refine ⟨ht, ?_⟩
        rw [if_pos ht] at hr
        injection hr with h2
        exact h2.symm
  by_cases hx : fi.isExecutableType
  · cases hact : (if ops.quickExec then ExecAction.DIRECT_EXEC else ops.askExecFile fi) with
    | DIRECT_EXEC =>
      exact hident (ldei_exec_ident ops plat rp fi paths cwd hs hx (Or.inl hact))
    | EXEC_IN_TERMINAL =>
      exact hident (ldei_exec_ident ops plat rp fi paths cwd hs hx (Or.inr hact))
    | OPEN_WITH_DEFAULT_APP =>
      have hred : launchDesktopEntryInfo ops plat rp fi paths cwd =
          some ((launchWithDefaultApp ops plat fi).1,
                (launchWithDefaultApp ops plat fi).2, cwd) := by
        unfold launchDesktopEntryInfo
        rw [hx]
        simp only [if_true]
        rw [hact]
      rw [hred] at hres
      injection hres with h1
      injection h1 with he _
      rw [← he] at hmem
      exact absurd hmem (launchWithDefaultApp_no_desktop ops plat fi name)
    | CANCEL =>
      have hred : launchDesktopEntryInfo ops plat rp fi paths cwd =
          some ([], false, cwd) := by
        unfold launchDesktopEntryInfo
        rw [hx]
        simp only [if_true]
        rw [hact]
      rw [hred] at hres
      injection hres with h1
      injection h1 with he _
      rw [← he] at hmem
      simp at hmem
  · have hx' : fi.isExecutableType = false := by simpa using hx
    by_cases hnm : fi.isNative = true ∨ fi.path.hasUriScheme "menu" = true
    · exact hident (ldei_nonexec_ident ops plat rp fi paths cwd hx' hnm)
    · push_neg at hnm
      have h1 : fi.isNative = false := by simpa using hnm.1
      have h2 : fi.path.hasUriScheme "menu" = false := by simpa using hnm.2
      rw [ldei_nonexec_skip ops plat rp fi paths cwd hx' h1 h2] at hres
      injection hres with h3
      injection h3 with he _
      rw [← he] at hmem
      simp at hmem

/-- A native, non-executable desktop entry whose target names its entry id. -/
def desktopInfo : FileInfo :=
  { genericInfo with isDesktopEntry := true, target := "app.desktop" }

theorem claim6_witness :
    launchDesktopEntryInfo baseOps emptyPlatform (fun _ _ => none)
        desktopInfo [] "/" =
      some ((launchDesktopEntryName baseOps emptyPlatform "app.desktop" []).1,
            (launchDesktopEntryName baseOps emptyPlatform "app.desktop" []).2, "/") := by
  have h := ((claim6_registry_identifier baseOps emptyPlatform (fun _ _ => none)
      desktopInfo [] "/" rfl).2.2.1) rfl (Or.inl rfl)
  rw [h]
  have hr : registryIdent desktopInfo = some "app.desktop" := by decide
  rw [hr]

/-! ## C7 and C8 -/

/-- An executable regular file with a native path. -/
def execInfo : FileInfo :=
  { genericInfo with
    path := { uri := "file:///a/run.sh", localPath := some "/a/run.sh" }
    isExecutableType := true }

/-- A platform on which the executable test and command-line creation
succeed, `chdir` succeeds only into `/a`, and launching fails. -/
def chdirFailPlatform : Platform :=
  { emptyPlatform with
    fileTestExecutable := fun _ => true
    createFromCommandline := fun _ _ => some { id := "cmd" }
    chdirOk := fun d => d == "/a" }

lemma launchExecutable_noTest (ops : LauncherOps) (plat : Platform)
    (fi : FileInfo) (cwd f : String) (hf : fi.path.localPath = some f)
    (ht : plat.fileTestExecutable f = false) :
    launchExecutable ops plat fi cwd = ([], false, cwd) := by
  simp [launchExecutable, hf, ht]

lemma launchExecutable_cancel (ops : LauncherOps) (plat : Platform)
    (fi : FileInfo) (cwd f : String) (hf : fi.path.localPath = some f)
    (ht : plat.fileTestExecutable f = true) (ha : chosenAct ops fi = ExecAction.CANCEL) :
    launchExecutable ops plat fi cwd = ([], false, cwd) := by
  simp only [launchExecutable, hf, ht, if_true]
  rw [ha]

lemma launchExecutable_openDefault (ops : LauncherOps) (plat : Platform)
    (fi : FileInfo) (cwd f : String) (hf : fi.path.localPath = some f)
    (ht : plat.fileTestExecutable f = true)
    (ha : chosenAct ops fi = ExecAction.OPEN_WITH_DEFAULT_APP) :
    launchExecutable ops plat fi cwd =
      ((launchWithDefaultApp ops plat fi).1, (launchWithDefaultApp ops plat fi).2, cwd) := by
  simp only [launchExecutable, hf, ht, if_true]
  rw [ha]

lemma launchExecutable_createFail (ops : LauncherOps) (plat : Platform)
    (fi : FileInfo) (cwd f : String) (hf : fi.path.localPath = some f)
    (ht : plat.fileTestExecutable f = true)
    (ha : chosenAct ops fi = ExecAction.DIRECT_EXEC ∨
          chosenAct ops fi = ExecAction.EXEC_IN_TERMINAL)
    (hc : plat.createFromCommandline (shellQuote f) (execFlags ops fi) = none) :
    launchExecutable ops plat fi cwd =
      ([Event.createApp (shellQuote f) (execFlags ops fi)], false, cwd) := by
  simp only [launchExecutable, hf, ht, if_true]
  rcases ha with h | h <;> rw [h] <;> simp [hc]

lemma launchExecutable_run (ops : LauncherOps) (plat : Platform)
    (fi : FileInfo) (cwd f : String) (app : AppInfo)
    (hf : fi.path.localPath = some f)
    (ht : plat.fileTestExecutable f = true)
    (ha : chosenAct ops fi = ExecAction.DIRECT_EXEC ∨
          chosenAct ops fi = ExecAction.EXEC_IN_TERMINAL)
    (hc : plat.createFromCommandline (shellQuote f) (execFlags ops fi) = some app) :
    launchExecutable ops plat fi cwd =
      (Event.createApp (shellQuote f) (execFlags ops fi)
          :: (runCreatedApp ops plat app f cwd).1,
        true, (runCreatedApp ops plat app f cwd).2) := by
  simp only [launchExecutable, hf, ht, if_true]
  rcases ha with h | h <;> rw [h] <;> simp [hc]

lemma runCreatedApp_props (ops : LauncherOps) (plat : Platform)
    (app : AppInfo) (f cwd : String) :
    (pathGetDirname f = "." → (runCreatedApp ops plat app f cwd).2 = cwd)
    ∧ (plat.chdirOk (pathGetDirname f) = false →
        (runCreatedApp ops plat app f cwd).2 = cwd)
    ∧ (plat.chdirOk cwd = true → (runCreatedApp ops plat app f cwd).2 = cwd)
    ∧ ((runCreatedApp ops plat app f cwd).2 = cwd
        ∨ (runCreatedApp ops plat app f cwd).2 = pathGetDirname f)
    ∧ (∀ d ok, Event.chdirTo d ok ∈ (runCreatedApp ops plat app f cwd).1 →
        pathGetDirname f ≠ "." ∧ (d = pathGetDirname f ∨ d = cwd))
    ∧ (Event.chdirTo (pathGetDirname f) true ∈ (runCreatedApp ops plat app f cwd).1 →
        Event.chdirTo cwd (plat.chdirOk cwd) ∈ (runCreatedApp ops plat app f cwd).1) := by
  by_cases h1 : pathGetDirname f = "." <;>
    by_cases h2 : plat.chdirOk (pathGetDirname f) = true <;>
      by_cases h3 : plat.appInfoLaunchOk app = true <;>
        by_cases h4 : plat.chdirOk cwd = true <;>
          simp_all [runCreatedApp]

lemma runCreatedApp_no_createApp (ops : LauncherOps) (plat : Platform)
    (app : AppInfo) (f cwd : String) (cmd : String) (fl : Nat) :
    Event.createApp cmd fl ∉ (runCreatedApp ops plat app f cwd).1 := by
  by_cases h1 : pathGetDirname f = "." <;>
    by_cases h2 : plat.chdirOk (pathGetDirname f) = true <;>
      by_cases h3 : plat.appInfoLaunchOk app = true <;>
        by_cases h4 : plat.chdirOk cwd = true <;>
          simp_all [runCreatedApp]

lemma launchWithApp_no_chdir (ops : LauncherOps) (plat : Platform)
    (a : Option AppInfo) (ps : List FPath) (d : String) (ok : Bool) :
    Event.chdirTo d ok ∉ (launchWithApp ops plat a ps).1 := by
  simp only [launchWithApp]
  by_cases hok : plat.launchUrisOk a ((ps.map FPath.uri).reverse) = true
  · simp [hok]
  · rw [Bool.not_eq_true] at hok
    cases ps with
    | nil => simp_all
    | cons p t => simp_all

lemma launchWithApp_no_createApp (ops : LauncherOps) (plat : Platform)
    (a : Option AppInfo) (ps : List FPath) (cmd : String) (fl : Nat) :
    Event.createApp cmd fl ∉ (launchWithApp ops plat a ps).1 := by
  simp only [launchWithApp]
  by_cases hok : plat.launchUrisOk a ((ps.map FPath.uri).reverse) = true
  · simp [hok]
  · rw [Bool.not_eq_true] at hok
    cases ps with
    | nil => simp_all
    | cons p t => simp_all

lemma launchWithDefaultApp_no_chdir (ops : LauncherOps) (plat : Platform)
    (fi : FileInfo) (d : String) (ok : Bool) :
    Event.chdirTo d ok ∉ (launchWithDefaultApp ops plat fi).1 := by
  unfold launchWithDefaultApp
  cases h : plat.defaultForType fi.mimeType.name with
  | none => simp
  | some a => exact launchWithApp_no_chdir ops plat (some a) [fi.path] d ok

lemma launchWithDefaultApp_no_createApp (ops : LauncherOps) (plat : Platform)
    (fi : FileInfo) (cmd : String) (fl : Nat) :
    Event.createApp cmd fl ∉ (launchWithDefaultApp ops plat fi).1 := by
  unfold launchWithDefaultApp
  cases h : plat.defaultForType fi.mimeType.name with
  | none => simp
  | some a => exact launchWithApp_no_createApp ops plat (some a) [fi.path] cmd fl

theorem claim7_counterexample :
    (launchExecutable baseOps chdirFailPlatform execInfo "/home").2.2 ≠ "/home" := by
  decide

/-- C7, amended: the working directory is changed only when the containing
folder differs from `"."` and the `chdir` into it succeeds; a restoring
`chdir` back to the original directory is then attempted after the launch,
and the working directory after the call equals the one before whenever that
restoring `chdir` succeeds (in particular whenever no change was made); if
the restoring `chdir` fails — the code only emits a warning — the working
directory is left at the executable's containing folder. -/
theorem claim7_workdir_amended (ops : LauncherOps) (plat : Platform)
    (fi : FileInfo) (cwd : String) (f : String)
    (hf : fi.path.localPath = some f) :
    (pathGetDirname f = "." → (launchExecutable ops plat fi cwd).2.2 = cwd)
    ∧ (plat.chdirOk (pathGetDirname f) = false →
        (launchExecutable ops plat fi cwd).2.2 = cwd)
    ∧ (plat.chdirOk cwd = true → (launchExecutable ops plat fi cwd).2.2 = cwd)
    ∧ ((launchExecutable ops plat fi cwd).2.2 = cwd
        ∨ (launchExecutable ops plat fi cwd).2.2 = pathGetDirname f)
    ∧ (∀ d ok, Event.chdirTo d ok ∈ (launchExecutable ops plat fi cwd).1 →
        pathGetDirname f ≠ "." ∧ (d = pathGetDirname f ∨ d = cwd))
    ∧ (Event.chdirTo (pathGetDirname f) true ∈ (launchExecutable ops plat fi cwd).1 →
        Event.chdirTo cwd (plat.chdirOk cwd) ∈ (launchExecutable ops plat fi cwd).1) := by
  by_cases ht : plat.fileTestExecutable f = true
  · have main : ∀ (_ : chosenAct ops fi = ExecAction.DIRECT_EXEC
            ∨ chosenAct ops fi = ExecAction.EXEC_IN_TERMINAL),
        (pathGetDirname f = "." → (launchExecutable ops plat fi cwd).2.2 = cwd)
        ∧ (plat.chdirOk (pathGetDirname f) = false →
            (launchExecutable ops plat fi cwd).2.2 = cwd)
        ∧ (plat.chdirOk cwd = true → (launchExecutable ops plat fi cwd).2.2 = cwd)
        ∧ ((launchExecutable ops plat fi cwd).2.2 = cwd
            ∨ (launchExecutable ops plat fi cwd).2.2 = pathGetDirname f)
        ∧ (∀ d ok, Event.chdirTo d ok ∈ (launchExecutable ops plat fi cwd).1 →
            pathGetDirname f ≠ "." ∧ (d = pathGetDirname f ∨ d = cwd))
        ∧ (Event.chdirTo (pathGetDirname f) true ∈ (launchExecutable ops plat fi cwd).1 →
            Event.chdirTo cwd (plat.chdirOk cwd) ∈ (launchExecutable ops plat fi cwd).1) := by
      intro ha
      cases hc : plat.createFromCommandline (shellQuote f) (execFlags ops fi) with
      | none =>
        rw [launchExecutable_createFail ops plat fi cwd f hf ht ha hc]
        refine ⟨fun _ => rfl, fun _ => rfl, fun _ => rfl, Or.inl rfl, ?_, ?_⟩
        · intro d ok hm; simp at hm
        · intro hm; simp at hm
      | some app =>
        rw [launchExecutable_run ops plat fi cwd f app hf ht ha hc]
        obtain ⟨p1, p2, p3, p4, p5, p6⟩ := runCreatedApp_props ops plat app f cwd
        refine ⟨fun h => p1 h, fun h => p2 h, fun h => p3 h, p4, ?_, ?_⟩
        · intro d ok hm
          rcases List.mem_cons.mp hm with heq | hmem
          · exact Event.noConfusion heq
          · exact p5 d ok hmem
        · intro hm
          rcases List.mem_cons.mp hm with heq | hmem
          · exact Event.noConfusion heq
          · exact List.mem_cons_of_mem _ (p6 hmem)
    cases hact : chosenAct ops fi with
    | DIRECT_EXEC => exact main (Or.inl hact)
    | EXEC_IN_TERMINAL => exact main (Or.inr hact)
    | OPEN_WITH_DEFAULT_APP =>
      rw [launchExecutable_openDefault ops plat fi cwd f hf ht hact]
      refine ⟨fun _ => rfl, fun _ => rfl, fun _ => rfl, Or.inl rfl, ?_, ?_⟩
      · intro d ok hm
        exact absurd hm (launchWithDefaultApp_no_chdir ops plat fi d ok)
      · intro hm
        exact absurd hm (launchWithDefaultApp_no_chdir ops plat fi (pathGetDirname f) true)
    | CANCEL =>
      rw [launchExecutable_cancel ops plat fi cwd f hf ht hact]
      refine ⟨fun _ => rfl, fun _ => rfl, fun _ => rfl, Or.inl rfl, ?_, ?_⟩
      · intro d ok hm; simp at hm
      · intro hm; simp at hm
  · rw [Bool.not_eq_true] at ht
    rw [launchExecutable_noTest ops plat fi cwd f hf ht]
    refine ⟨fun _ => rfl, fun _ => rfl, fun _ => rfl, Or.inl rfl, ?_, ?_⟩
    · intro d ok hm; simp at hm
    · intro hm; simp at hm

theorem claim7_witness :
    (launchExecutable baseOps emptyPlatform execInfo "/").2.2 = "/" :=
  (claim7_workdir_amended baseOps emptyPlatform execInfo "/" "/a/run.sh" rfl).2.2.1 rfl

/-- C8: the executable bit is re-tested at launch time before any action
(a failing test produces no events and no launch), and the application is
created from the quoted command line with the needs-terminal creation flag
exactly when the chosen action is execute-in-terminal — under direct
execution the flags word is zero. -/
theorem claim8_terminal_flag (ops : LauncherOps) (plat : Platform)
    (fi : FileInfo) (cwd : String) (f : String)
    (hf : fi.path.localPath = some f) :
    (plat.fileTestExecutable f = false →
      launchExecutable ops plat fi cwd = ([], false, cwd))
    ∧ (∀ cmd flags, Event.createApp cmd flags ∈ (launchExecutable ops plat fi cwd).1 →
        cmd = shellQuote f ∧ flags = execFlags ops fi)
    ∧ (plat.fileTestExecutable f = true →
        (chosenAct ops fi = ExecAction.DIRECT_EXEC
          ∨ chosenAct ops fi = ExecAction.EXEC_IN_TERMINAL) →
        Event.createApp (shellQuote f) (execFlags ops fi)
          ∈ (launchExecutable ops plat fi cwd).1)
    ∧ (chosenAct ops fi = ExecAction.EXEC_IN_TERMINAL →
        execFlags ops fi = NEEDS_TERMINAL)
    ∧ (chosenAct ops fi = ExecAction.DIRECT_EXEC → execFlags ops fi = 0) := by
  refine ⟨launchExecutable_noTest ops plat fi cwd f hf, ?_, ?_,
    fun h => by simp [execFlags, h],
    fun h => by simp [execFlags, h]⟩
  · intro cmd flags hm
    by_cases ht : plat.fileTestExecutable f = true
    · cases hact : chosenAct ops fi with
      | DIRECT_EXEC | EXEC_IN_TERMINAL =>
        have ha : chosenAct ops fi = ExecAction.DIRECT_EXEC
            ∨ chosenAct ops fi = ExecAction.EXEC_IN_TERMINAL := by
          rw [hact]; first | exact Or.inl rfl | exact Or.inr rfl
        cases hc : plat.createFromCommandline (shellQuote f) (execFlags ops fi) with
        | none =>
          rw [launchExecutable_createFail ops plat fi cwd f hf ht ha hc] at hm
          simp at hm
          exact ⟨hm.1, hm.2⟩
        | some app =>
          rw [launchExecutable_run ops plat fi cwd f app hf ht ha hc] at hm
          rcases List.mem_cons.mp hm with heq | hmem
          · injection heq with h1 h2
            exact ⟨h1, h2⟩
          · exact absurd hmem (runCreatedApp_no_createApp ops plat app f cwd cmd flags)
      | OPEN_WITH_DEFAULT_APP =>
        rw [launchExecutable_openDefault ops plat fi cwd f hf ht hact] at hm
        exact absurd hm (launchWithDefaultApp_no_createApp ops plat fi cmd flags)
      | CANCEL =>
        rw [launchExecutable_cancel ops plat fi cwd f hf ht hact] at hm
        simp at hm
    · rw [Bool.not_eq_true] at ht
      rw [launchExecutable_noTest ops plat fi cwd f hf ht] at hm
      simp at hm
  · intro ht ha
    cases hc : plat.createFromCommandline (shellQuote f) (execFlags ops fi) with
    | none =>
      rw [launchExecutable_createFail ops plat fi cwd f hf ht ha hc]
      simp
    | some app =>
      rw [launchExecutable_run ops plat fi cwd f app hf ht ha hc]
      exact List.mem_cons_self _ _

theorem claim8_witness :
    launchExecutable baseOps emptyPlatform execInfo "/" = ([], false, "/") :=
  (claim8_terminal_flag baseOps emptyPlatform execInfo "/" "/a/run.sh" rfl).1 rfl

/-! ## C9 -/

/-- A platform that resolves the desktop-entry id `app.desktop` but on which
every launch fails. -/
def oobPlatform : Platform :=
  { emptyPlatform with
    desktopAppFromId := fun n =>
      if n == "app.desktop" then some { id := "app" } else none }

/-- C9: the error branch of `launchWithApp` reads the first element of the
path list, which is safe exactly under the precondition that the list is
non-empty (first conjunct); with an empty batch and a failing launch it
performs an out-of-bounds read (second conjunct); and `launchFiles` does
reach that read, because it invokes the desktop-entry path with an empty
extra-path list — the third conjunct runs a full dispatch of one desktop
entry whose registry launch fails and finds the out-of-bounds read in its
trace. -/
theorem claim9_oob_on_empty_batch :
    (∀ (ops : LauncherOps) (plat : Platform) (app : Option AppInfo)
        (paths : List FPath), paths ≠ [] →
      Event.oobRead ∉ (launchWithApp ops plat app paths).1)
    ∧ (∀ (ops : LauncherOps) (plat : Platform) (app : Option AppInfo),
        plat.launchUrisOk app [] = false →
        Event.oobRead ∈ (launchWithApp ops plat app []).1)
    ∧ launchFilesF baseOps oobPlatform 1 [desktopInfo] "/"
        = some ([Event.desktopLaunch "app.desktop",
                 Event.launch (some { id := "app" }) [] false,
                 Event.oobRead], true, "/") := by
  refine ⟨?_, ?_, by decide⟩
  · intro ops plat app paths hne
    simp only [launchWithApp]
    by_cases hok : plat.launchUrisOk app ((paths.map FPath.uri).reverse) = true
    · simp [hok]
    · rw [Bool.not_eq_true] at hok
      cases paths with
      | nil => exact absurd rfl hne
      | cons p t => simp_all
  · intro ops plat app h
    simp [launchWithApp, h]

theorem claim9_witness :
    Event.oobRead ∉ (launchWithApp baseOps emptyPlatform none
        [FPath.fromLocalPath "/x"]).1
    ∧ Event.oobRead ∈ (launchWithApp baseOps emptyPlatform none []).1 :=
  ⟨claim9_oob_on_empty_batch.1 baseOps emptyPlatform none
      [FPath.fromLocalPath "/x"] (by simp),
   claim9_oob_on_empty_batch.2.1 baseOps emptyPlatform none rfl⟩

end Fm
